import Mathlib

/-!
Verification development for the fetch-straw-conditions program
(src/fetch-straw-conditions.py).

The program reconciles detector-panel operating conditions from a
compressed MIDAS configuration blob and a hardware quality-control
database into a flat per-panel status table.  The shallow embedding
below translates, from the source:

* the delimiter-balance object extractor inside
  fetch_midas_configuration (lines 24-44);
* the configuration-tree traversal of get_midas_conditions
  (lines 52-80);
* the SQL query construction of build_hardware_query (lines 82-91)
  and the query actually used by get_hardware_conditions (line 96);
* the merge of get_conditions (lines 129-144);
* the line emission of write_offline_table (lines 157-164).

Python dicts are embedded as association lists with first-match
lookup; dict assignment replaces the first matching key in place and
appends otherwise, matching the insertion-order semantics of CPython
dicts.  The external collaborators (ssh retrieval, lz4 decompression,
json parsing, the database session, console output) are out of scope
and appear only as the boundaries of the embedded functions.
-/

/-! ## Association-list embedding of Python dicts -/

/-- Lookup of a key in a dict, first match wins (Python dict lookup). -/
def dget {α : Type} : List (String × α) → String → Option α
  | [], _ => none
  | p :: rest, k => if p.1 = k then some p.2 else dget rest k

/-- Dict assignment d[k] = v: replace the first binding of k in place,
or append a new binding at the end (CPython insertion-order update). -/
def dinsert {α : Type} : List (String × α) → String → α → List (String × α)
  | [], k, v => [(k, v)]
  | p :: rest, k, v => if p.1 = k then (k, v) :: rest else p :: dinsert rest k v

/-- Python dict.update: assign every binding of d into m, in order. -/
def dupdate {α : Type} (m : List (String × α)) (d : List (String × α)) :
    List (String × α) :=
  d.foldl (fun acc p => dinsert acc p.1 p.2) m

/-- The keys of a dict, in order. -/
def dkeys {α : Type} (m : List (String × α)) : List String :=
  m.map Prod.fst

theorem dkeys_cons {α : Type} (p : String × α) (rest : List (String × α)) :
    dkeys (p :: rest) = p.1 :: dkeys rest := rfl

theorem dget_eq_none_iff {α : Type} (m : List (String × α)) (k : String) :
    dget m k = none ↔ k ∉ dkeys m := by
  induction m with
  | nil => simp [dget, dkeys]
  | cons p rest ih =>
    show (if p.1 = k then some p.2 else dget rest k) = none ↔ k ∉ dkeys (p :: rest)
    rw [dkeys_cons]
    by_cases h : p.1 = k
    · rw [if_pos h]
      simp [h]
    · rw [if_neg h, List.mem_cons, ih]
      constructor
      · intro h1 h2
        rcases h2 with h2 | h2
        · exact h h2.symm
        · exact h1 h2
      · intro h1 h2
        exact h1 (Or.inr h2)

theorem mem_dkeys_iff_isSome {α : Type} (m : List (String × α)) (k : String) :
    k ∈ dkeys m ↔ (dget m k).isSome = true := by
  rw [← not_iff_not, ← dget_eq_none_iff]
  cases dget m k with
  | none => simp
  | some v => simp

theorem dget_dinsert {α : Type} (m : List (String × α)) (k : String) (v : α)
    (a : String) :
    dget (dinsert m k v) a = if a = k then some v else dget m a := by
  induction m with
  | nil =>
    show (if k = a then some v else none) = if a = k then some v else none
    by_cases h : a = k
    · rw [if_pos h.symm, if_pos h]
    · rw [if_neg (fun hh => h hh.symm), if_neg h]
  | cons p rest ih =>
    show dget (if p.1 = k then (k, v) :: rest else p :: dinsert rest k v) a = _
    by_cases hp : p.1 = k
    · rw [if_pos hp]
      show (if k = a then some v else dget rest a) =
        if a = k then some v else (if p.1 = a then some p.2 else dget rest a)
      by_cases ha : a = k
      · rw [if_pos ha.symm, if_pos ha]
      · rw [if_neg (fun hh => ha hh.symm), if_neg ha,
          if_neg (show ¬ p.1 = a from fun hh => ha (hh.symm.trans hp))]
    · rw [if_neg hp]
      show (if p.1 = a then some p.2 else dget (dinsert rest k v) a) =
        if a = k then some v else (if p.1 = a then some p.2 else dget rest a)
      rw [ih]
      by_cases hpa : p.1 = a
      · have hak : ¬ a = k := fun hh => hp (hpa.trans hh)
        rw [if_pos hpa, if_neg hak, if_pos hpa]
      · rw [if_neg hpa]
        by_cases hak : a = k
        · rw [if_pos hak, if_pos hak]
        · rw [if_neg hak, if_neg hak, if_neg hpa]

theorem mem_dkeys_dinsert {α : Type} (m : List (String × α)) (k : String) (v : α)
    (a : String) :
    a ∈ dkeys (dinsert m k v) ↔ a ∈ dkeys m ∨ a = k := by
  induction m with
  | nil =>
    show a ∈ [k] ↔ a ∈ ([] : List String) ∨ a = k
    simp
  | cons p rest ih =>
    show a ∈ dkeys (if p.1 = k then (k, v) :: rest else p :: dinsert rest k v) ↔
      a ∈ p.1 :: dkeys rest ∨ a = k
    by_cases hp : p.1 = k
    · rw [if_pos hp]
      show a ∈ k :: dkeys rest ↔ _
      rw [List.mem_cons, List.mem_cons, hp]
      tauto
    · rw [if_neg hp]
      show a ∈ p.1 :: dkeys (dinsert rest k v) ↔ _
      rw [List.mem_cons, List.mem_cons, ih]
      tauto

theorem nodup_dkeys_dinsert {α : Type} (m : List (String × α)) (k : String) (v : α)
    (h : (dkeys m).Nodup) : (dkeys (dinsert m k v)).Nodup := by
  induction m with
  | nil =>
    show ([k] : List String).Nodup
    simp
  | cons p rest ih =>
    have hcons : (p.1 :: dkeys rest).Nodup := h
    rw [List.nodup_cons] at hcons
    show (dkeys (if p.1 = k then (k, v) :: rest else p :: dinsert rest k v)).Nodup
    by_cases hp : p.1 = k
    · rw [if_pos hp]
      show (k :: dkeys rest).Nodup
      rw [List.nodup_cons]
      exact ⟨hp ▸ hcons.1, hcons.2⟩
    · rw [if_neg hp]
      show (p.1 :: dkeys (dinsert rest k v)).Nodup
      rw [List.nodup_cons]
      refine ⟨?_, ih hcons.2⟩
      intro hmem
      rcases (mem_dkeys_dinsert rest k v p.1).mp hmem with hm | he
      · exact hcons.1 hm
      · exact hp he

/-! ## Object Extractor: fetch_midas_configuration, lines 24-44

The source scans the decompressed buffer from the fixed start offset
16, keeping a running score: plus one per open-brace byte, minus one
per close-brace byte.  It breaks as soon as the score drops below one
(after the index increment, so the closing byte is included) and
slices the buffer from the start offset up to the final index.  The
only raise in this region fires when the byte at offset 16 is not an
open-brace byte.  Decoding and json parsing of the slice are outside
the extractor. -/

/-- The open-brace byte (Python: b-string of an open brace, index 0). -/
def plusByte : Nat := 123

/-- The close-brace byte. -/
def mnusByte : Nat := 125

/-- Score contribution of one byte: plus one for an open brace, minus
one for a close brace, zero otherwise. -/
def scoreDelta (b : Nat) : Int :=
  if b = plusByte then 1 else if b = mnusByte then -1 else 0

/-- Total score of a byte list (sum of scoreDelta). -/
def scoreOf : List Nat → Int
  | [] => 0
  | b :: rest => scoreDelta b + scoreOf rest

/-- The while loop of fetch_midas_configuration: walks the remaining
bytes with the running score, returning the final value of idx.  The
loop body updates the score, increments idx, and breaks once the score
is below one. -/
def scanLoop : List Nat → Int → Nat → Nat
  | [], _, idx => idx
  | b :: rest, score, idx =>
    let s2 := if b = plusByte then score + 1
              else if b = mnusByte then score - 1 else score
    if s2 < 1 then idx + 1 else scanLoop rest s2 (idx + 1)

/-- Object extraction step of fetch_midas_configuration: check the
byte at offset 16 is an open brace (raising otherwise), run the scan
loop from there, and slice the buffer from offset 16 to the final
index.  A buffer shorter than 17 bytes hits a Python IndexError at the
offset check, modelled as a distinct error. -/
def extract_object (buff : List Nat) : Except String (List Nat) :=
  match buff[16]? with
  | none => Except.error "index out of range"
  | some b =>
    if b = plusByte then
      Except.ok ((buff.take (scanLoop (buff.drop 16) 0 16)).drop 16)
    else
      Except.error "malformed midas configuration"

theorem scoreOf_append (l₁ l₂ : List Nat) :
    scoreOf (l₁ ++ l₂) = scoreOf l₁ + scoreOf l₂ := by
  induction l₁ with
  | nil => simp [scoreOf]
  | cons b rest ih => simp [scoreOf, ih]; ring

theorem score_update (b : Nat) (score : Int) :
    (if b = plusByte then score + 1 else if b = mnusByte then score - 1 else score)
      = score + scoreDelta b := by
  unfold scoreDelta
  by_cases hp : b = plusByte
  · rw [if_pos hp, if_pos hp]
  · rw [if_neg hp, if_neg hp]
    by_cases hm : b = mnusByte
    · rw [if_pos hm, if_pos hm]
      ring
    · rw [if_neg hm, if_neg hm]
      ring

theorem scanLoop_step (b : Nat) (rest : List Nat) (score : Int) (idx : Nat) :
    scanLoop (b :: rest) score idx =
      if score + scoreDelta b < 1 then idx + 1
      else scanLoop rest (score + scoreDelta b) (idx + 1) := by
  show (if (if b = plusByte then score + 1 else if b = mnusByte then score - 1 else score) < 1
      then idx + 1
      else scanLoop rest
        (if b = plusByte then score + 1 else if b = mnusByte then score - 1 else score)
        (idx + 1)) = _
  rw [score_update]

/-- If the running score stays at least one on every nonempty take of
the remaining bytes, the loop never breaks and consumes everything. -/
theorem scanLoop_exhausts (l : List Nat) :
    ∀ (s : Int) (idx : Nat),
      (∀ k, k ≤ l.length → 0 < k → 1 ≤ s + scoreOf (l.take k)) →
      scanLoop l s idx = idx + l.length := by
  induction l with
  | nil => intro s idx _; simp [scanLoop]
  | cons b rest ih =>
    intro s idx h
    rw [scanLoop_step]
    have h1 : 1 ≤ s + scoreDelta b := by
      have h2 := h 1 (by simp) (by omega)
      simpa [scoreOf] using h2
    rw [if_neg (by omega)]
    have hpre : ∀ k, k ≤ rest.length → 0 < k →
        1 ≤ (s + scoreDelta b) + scoreOf (rest.take k) := by
      intro k hk hk0
      have h3 := h (k + 1) (by simp only [List.length_cons]; omega) (by omega)
      rw [List.take_succ_cons] at h3
      have h4 : scoreOf (b :: rest.take k) = scoreDelta b + scoreOf (rest.take k) := rfl
      rw [h4] at h3
      omega
    rw [ih (s + scoreDelta b) (idx + 1) hpre]
    simp only [List.length_cons]
    omega

/-- If every nonempty proper take of r keeps the running score at
least one and the full region brings it to at most zero, the loop
breaks exactly at the end of r, whatever bytes follow. -/
theorem scanLoop_stops (r : List Nat) :
    ∀ (rest : List Nat) (s : Int) (idx : Nat),
      r ≠ [] →
      (∀ k, k < r.length → 0 < k → 1 ≤ s + scoreOf (r.take k)) →
      s + scoreOf r ≤ 0 →
      scanLoop (r ++ rest) s idx = idx + r.length := by
  induction r with
  | nil => intro rest s idx hne _ _; exact absurd rfl hne
  | cons b r2 ih =>
    intro rest s idx _ hpr hend
    cases r2 with
    | nil =>
      rw [List.cons_append, List.nil_append, scanLoop_step]
      have hle : s + scoreDelta b ≤ 0 := by
        have h4 : scoreOf [b] = scoreDelta b + 0 := rfl
        rw [h4] at hend
        omega
      rw [if_pos (by omega)]
      simp
    | cons c r3 =>
      rw [List.cons_append, scanLoop_step]
      have h1 : 1 ≤ s + scoreDelta b := by
        have h2 := hpr 1 (by simp only [List.length_cons]; omega) (by omega)
        simpa [scoreOf] using h2
      rw [if_neg (by omega)]
      have hpr2 : ∀ k, k < (c :: r3).length → 0 < k →
          1 ≤ (s + scoreDelta b) + scoreOf ((c :: r3).take k) := by
        intro k hk hk0
        have h3 := hpr (k + 1) (by simp only [List.length_cons] at hk ⊢; omega) (by omega)
        rw [List.take_succ_cons] at h3
        have h4 : scoreOf (b :: (c :: r3).take k)
            = scoreDelta b + scoreOf ((c :: r3).take k) := rfl
        rw [h4] at h3
        omega
      have hend2 : (s + scoreDelta b) + scoreOf (c :: r3) ≤ 0 := by
        have h4 : scoreOf (b :: c :: r3) = scoreDelta b + scoreOf (c :: r3) := rfl
        rw [h4] at hend
        omega
      rw [ih rest (s + scoreDelta b) (idx + 1) (by simp) hpr2 hend2]
      simp only [List.length_cons]
      omega

theorem extract_object_at_open (buff : List Nat)
    (hb : buff[16]? = some plusByte) :
    extract_object buff =
      Except.ok ((buff.take (scanLoop (buff.drop 16) 0 16)).drop 16) := by
  unfold extract_object
  rw [hb]
  rfl

theorem extract_object_not_open (buff : List Nat) (b : Nat)
    (hb : buff[16]? = some b) (hne : b ≠ plusByte) :
    extract_object buff = Except.error "malformed midas configuration" := by
  unfold extract_object
  rw [hb]
  show (if b = plusByte then _ else _) = _
  rw [if_neg hne]

/-- C1: for every decompressed buffer whose byte at the fixed start
offset 16 is an open-delimiter byte and which contains a
balanced-delimiter region starting there (running delimiter count
positive on every nonempty proper take and zero on the full region,
so the count first returns to zero at the last byte of the region),
the extractor returns exactly that region, inclusive of the closing
byte, regardless of the bytes that follow it. -/
theorem C1_extractor_returns_balanced_region
    (pre r rest : List Nat)
    (hpre : pre.length = 16)
    (hhead : r.head? = some plusByte)
    (hbal : scoreOf r = 0)
    (hmin : ∀ k, k < r.length → 0 < k → 1 ≤ scoreOf (r.take k)) :
    extract_object (pre ++ (r ++ rest)) = Except.ok r := by
  have hr : r ≠ [] := by
    intro h
    rw [h] at hhead
    exact Option.noConfusion hhead
  have hr0 : r[0]? = some plusByte := by
    rw [← List.head?_eq_getElem?]
    exact hhead
  have hidx : (pre ++ (r ++ rest))[16]? = some plusByte := by
    rw [List.getElem?_append_right (by omega)]
    rw [hpre]
    simp only [Nat.sub_self]
    rw [List.getElem?_append_left (by
      cases r with
      | nil => exact absurd rfl hr
      | cons x xs => simp)]
    exact hr0
  rw [extract_object_at_open _ hidx]
  have hdrop : (pre ++ (r ++ rest)).drop 16 = r ++ rest := List.drop_left' hpre
  rw [hdrop]
  have hscan : scanLoop (r ++ rest) 0 16 = 16 + r.length := by
    refine scanLoop_stops r rest 0 16 hr ?_ (by omega)
    intro k hk hk0
    have := hmin k hk hk0
    omega
  rw [hscan]
  have htake : (pre ++ (r ++ rest)).take (16 + r.length) = pre ++ r := by
    rw [← hpre, List.take_append]
    rw [List.take_left' rfl]
  rw [htake, List.drop_left' hpre]

/-- C1 witness: a header of sixteen zero bytes, the two-byte balanced
region of one open and one close brace, and one trailing byte. -/
theorem C1_extractor_witness :
    extract_object (List.replicate 16 0 ++ ([123, 125] ++ [34]))
      = Except.ok [123, 125] :=
  C1_extractor_returns_balanced_region (List.replicate 16 0) [123, 125] [34]
    (by decide) (by decide) (by decide) (by decide)

theorem scoreDelta_bounds (b : Nat) : -1 ≤ scoreDelta b ∧ scoreDelta b ≤ 1 := by
  unfold scoreDelta
  by_cases hp : b = plusByte
  · rw [if_pos hp]; omega
  · rw [if_neg hp]
    by_cases hm : b = mnusByte
    · rw [if_pos hm]; omega
    · rw [if_neg hm]; omega

/-- Intermediate-value fact for the running score: if the region opens
with an open brace and the score of no nonempty take is zero, then the
score of every nonempty take is at least one (it starts at one and can
only move by one per byte, so it cannot jump below one without first
hitting zero). -/
theorem score_pos_of_never_zero (l : List Nat) (h0 : l[0]? = some plusByte)
    (hnz : ∀ k, k ≤ l.length → 0 < k → scoreOf (l.take k) ≠ 0) :
    ∀ k, k ≤ l.length → 0 < k → 1 ≤ scoreOf (l.take k) := by
  intro k
  induction k with
  | zero => intro _ h; omega
  | succ n ih =>
    intro hk _
    by_cases hn : 0 < n
    · have hprev : 1 ≤ scoreOf (l.take n) := ih (by omega) hn
      have hnz2 : scoreOf (l.take (n + 1)) ≠ 0 := hnz (n + 1) hk (by omega)
      rw [List.take_succ] at hnz2 ⊢
      rw [scoreOf_append] at hnz2 ⊢
      have hb : -1 ≤ scoreOf l[n]?.toList := by
        cases he : l[n]? with
        | none => simp [scoreOf]
        | some c =>
          have hx : scoreOf [c] = scoreDelta c + 0 := rfl
          simp only [Option.toList_some, hx]
          have := (scoreDelta_bounds c).1
          omega
      omega
    · have hn0 : n = 0 := by omega
      subst hn0
      cases l with
      | nil => exact absurd h0 (by simp)
      | cons x xs =>
        have hx : x = plusByte := by simpa using h0
        subst hx
        have hx2 : scoreOf ((plusByte :: xs).take 1) = scoreDelta plusByte + 0 := rfl
        rw [hx2]
        have hx3 : scoreDelta plusByte = 1 := by unfold scoreDelta; rw [if_pos rfl]
        omega

/-- C2 counterexample: a buffer whose byte at offset 16 is an open
brace and whose running delimiter count never returns to zero (the
second open brace sits inside a quoted string), yet extraction
succeeds, returning the whole remainder of the buffer instead of
raising.  The bytes after the header spell a json object whose value
is a string containing an open brace. -/
theorem C2_counterexample_unbalanced_extraction_succeeds :
    ((List.replicate 16 0 ++ [123, 34, 97, 34, 58, 32, 34, 123, 34, 125])[16]?
        = some plusByte)
    ∧ (∀ k, k ≤ 10 → 0 < k →
        scoreOf (((List.replicate 16 0
          ++ [123, 34, 97, 34, 58, 32, 34, 123, 34, 125]).drop 16).take k) ≠ 0)
    ∧ extract_object (List.replicate 16 0 ++ [123, 34, 97, 34, 58, 32, 34, 123, 34, 125])
        = Except.ok [123, 34, 97, 34, 58, 32, 34, 123, 34, 125] := by
  refine ⟨by decide, by decide, by rfl⟩

/-- C2 amended: the extractor raises the malformed-stream error
exactly when the byte at offset 16 is present and is not an open
brace; when the byte at offset 16 is an open brace but the delimiter
count never returns to zero, the extractor does not raise: it returns
the whole remainder of the buffer from offset 16 to its end (any
malformedness surfaces only later, in json parsing, which is outside
the extractor). -/
theorem C2_extractor_amended (buff : List Nat) (b : Nat)
    (hb : buff[16]? = some b) :
    (b ≠ plusByte → extract_object buff = Except.error "malformed midas configuration")
    ∧ (b = plusByte →
       (∀ k, k ≤ (buff.drop 16).length → 0 < k →
          scoreOf ((buff.drop 16).take k) ≠ 0) →
       extract_object buff = Except.ok (buff.drop 16)) := by
  constructor
  · intro hne
    exact extract_object_not_open buff b hb hne
  · intro hbp hnz
    subst hbp
    have hdrop0 : (buff.drop 16)[0]? = some plusByte := by
      rw [List.getElem?_drop]
      exact hb
    have hpos := score_pos_of_never_zero (buff.drop 16) hdrop0 hnz
    rw [extract_object_at_open buff hb]
    have hscan : scanLoop (buff.drop 16) 0 16 = 16 + (buff.drop 16).length := by
      refine scanLoop_exhausts _ 0 16 ?_
      intro k hk hk0
      have := hpos k hk hk0
      omega
    rw [hscan]
    have h16 : 16 < buff.length := by
      by_contra hcon
      rw [List.getElem?_eq_none (by omega)] at hb
      exact Option.noConfusion hb
    have hlen : (buff.drop 16).length = buff.length - 16 := List.length_drop 16 buff
    rw [hlen]
    have heq : 16 + (buff.length - 16) = buff.length := by omega
    rw [heq, List.take_length]

/-- C2 amended witness: a seventeen-byte buffer whose byte at offset
16 is a zero byte, hence not an open brace, is rejected. -/
theorem C2_extractor_amended_witness :
    extract_object (List.replicate 16 0 ++ [0])
      = Except.error "malformed midas configuration" :=
  (C2_extractor_amended (List.replicate 16 0 ++ [0]) 0 (by decide)).1 (by decide)

/-! ## Configuration Navigator: get_midas_conditions, lines 52-80

The parsed configuration tree is embedded as a small json-value type:
objects (string-keyed, insertion ordered), arrays of booleans (the
readout masks of the schema), and strings (the Name fields).  The
traversal descends the fixed key path Mu2e, RunConfigurations,
train_station, Tracker, then loops over station keys matching the
pattern Station_00 at the start, plane keys matching Plane_ plus two
digits at the start, and panel keys matching Panel_ plus two digits at
the start (re.match anchors at the start only, so longer keys with
these beginnings also match).  Error messages reproduce the raise
statements of the source; incidental Python exception texts (KeyError,
AttributeError, TypeError) are modelled by short tagged strings. -/

inductive JVal where
  | obj : List (String × JVal) → JVal
  | arr : List Bool → JVal
  | str : String → JVal

/-- A partial panel record: field name to list of channel indices. -/
abbrev Rec := List (String × List Int)

/-- Pattern for station keys: re.match of Station_0 twice, that is,
the literal Station_00 at the start of the key. -/
def matchStation (s : String) : Bool :=
  match s.toList with
  | 'S' :: 't' :: 'a' :: 't' :: 'i' :: 'o' :: 'n' :: '_' :: '0' :: '0' :: _ => true
  | _ => false

/-- Pattern for plane keys: the literal Plane_ then two digits, at the
start of the key. -/
def matchPlane (s : String) : Bool :=
  match s.toList with
  | 'P' :: 'l' :: 'a' :: 'n' :: 'e' :: '_' :: c :: d :: _ => c.isDigit && d.isDigit
  | _ => false

/-- Pattern for panel keys: the literal Panel_ then two digits, at the
start of the key. -/
def matchPanel (s : String) : Bool :=
  match s.toList with
  | 'P' :: 'a' :: 'n' :: 'e' :: 'l' :: '_' :: c :: d :: _ => c.isDigit && d.isDigit
  | _ => false

/-- The list comprehension of line 74: indices below the mask length
whose mask entry is falsy, in increasing order. -/
def disabledOf (enabled : List Bool) : List Int :=
  ((List.range enabled.length).filter (fun i => !(enabled.getD i true))).map
    (fun (i : Nat) => (i : Int))

/-- Processing of one matched panel node, lines 66-79: read Name as
the label (the schema makes it a string; any other shape is a model
error value), reject an already-seen label as a duplicate, then
inside the try block read ch_mask, enforce length 96 (that raise is
wrapped with the label by the except clause), and record the disabled
channels under readout_disabled. -/
def doPanel (rv : List (String × Rec)) (vpn : JVal) :
    Except String (List (String × Rec)) :=
  match vpn with
  | JVal.obj fields =>
    match dget fields "Name" with
    | some (JVal.str label) =>
      if (dget rv label).isSome then
        Except.error ("encountered duplicate panel " ++ label)
      else
        match dget fields "ch_mask" with
        | some (JVal.arr enabled) =>
          if enabled.length ≠ 96 then
            Except.error ("exception: " ++ label ++ ": malformed readout mask")
          else
            Except.ok (dinsert rv label [("readout_disabled", disabledOf enabled)])
        | some _ => Except.error ("exception: " ++ label ++ ": type error: ch_mask")
        | none => Except.error ("exception: " ++ label ++ ": key error: ch_mask")
    | some _ => Except.error "type error: Name"
    | none => Except.error "key error: Name"
  | _ => Except.error "type error: panel items"

/-- The panel loop of lines 64-79: visit each key of a plane object,
process those matching the panel pattern, and skip the rest. -/
def doPanels (rv : List (String × Rec)) :
    List (String × JVal) → Except String (List (String × Rec))
  | [] => Except.ok rv
  | (kpn, vpn) :: rest =>
    if matchPanel kpn then
      match doPanel rv vpn with
      | Except.ok rv2 => doPanels rv2 rest
      | Except.error e => Except.error e
    else doPanels rv rest

/-- The plane loop of lines 62-79: visit each key of a station object,
descend into objects under keys matching the plane pattern (items on a
non-object is a Python AttributeError, modelled as an error), and skip
the rest. -/
def doPlanes (rv : List (String × Rec)) :
    List (String × JVal) → Except String (List (String × Rec))
  | [] => Except.ok rv
  | (kpl, vpl) :: rest =>
    if matchPlane kpl then
      match vpl with
      | JVal.obj panels =>
        match doPanels rv panels with
        | Except.ok rv2 => doPlanes rv2 rest
        | Except.error e => Except.error e
      | _ => Except.error "type error: plane items"
    else doPlanes rv rest

/-- The station loop of lines 60-79: visit each key of the Tracker
object, descend into objects under keys matching the station pattern,
and skip the rest. -/
def doStations (rv : List (String × Rec)) :
    List (String × JVal) → Except String (List (String × Rec))
  | [] => Except.ok rv
  | (kst, vst) :: rest =>
    if matchStation kst then
      match vst with
      | JVal.obj planes =>
        match doPlanes rv planes with
        | Except.ok rv2 => doStations rv2 rest
        | Except.error e => Except.error e
      | _ => Except.error "type error: station items"
    else doStations rv rest

/-- Fixed-path key access of lines 54-57: index an object by a key,
failing on a missing key or a non-object. -/
def getKey (v : JVal) (k : String) : Except String JVal :=
  match v with
  | JVal.obj m =>
    match dget m k with
    | some w => Except.ok w
    | none => Except.error ("key error: " ++ k)
  | _ => Except.error ("type error: " ++ k)

/-- get_midas_conditions after json parsing, lines 52-80: descend the
fixed path Mu2e, RunConfigurations, train_station, Tracker, then run
the station loop with an empty accumulator. -/
def get_midas_conditions_core (root : JVal) : Except String (List (String × Rec)) :=
  match getKey root "Mu2e" with
  | Except.error e => Except.error e
  | Except.ok c1 =>
    match getKey c1 "RunConfigurations" with
    | Except.error e => Except.error e
    | Except.ok c2 =>
      match getKey c2 "train_station" with
      | Except.error e => Except.error e
      | Except.ok c3 =>
        match getKey c3 "Tracker" with
        | Except.error e => Except.error e
        | Except.ok c4 =>
          match c4 with
          | JVal.obj stations => doStations [] stations
          | _ => Except.error "type error: tracker items"


theorem disabledOf_pairwise (enabled : List Bool) :
    (disabledOf enabled).Pairwise (· < ·) := by
  have hp : ((List.range enabled.length).filter
      (fun i => !(enabled.getD i true))).Pairwise (· < ·) :=
    List.Pairwise.filter _ (List.pairwise_lt_range _)
  refine hp.map (fun (i : Nat) => (i : Int)) (fun a b hab => ?_)
  show (a : Int) < (b : Int)
  exact_mod_cast hab

theorem mem_disabledOf (enabled : List Bool) (i : Nat) :
    ((i : Int) ∈ disabledOf enabled) ↔
      (i < enabled.length ∧ enabled.getD i true = false) := by
  unfold disabledOf
  simp only [List.mem_map, List.mem_filter, List.mem_range]
  constructor
  · rintro ⟨a, ⟨halen, hamask⟩, hcast⟩
    have hai : a = i := by exact_mod_cast hcast
    rw [hai] at halen hamask
    refine ⟨halen, ?_⟩
    have hb : (!(enabled.getD i true)) = true := hamask
    rw [Bool.not_eq_true'] at hb
    exact hb
  · rintro ⟨hlen, hval⟩
    refine ⟨i, ⟨hlen, ?_⟩, rfl⟩
    show (!(enabled.getD i true)) = true
    rw [hval]
    rfl

/-- The configuration tree of the documented schema around a Tracker
object: the fixed key path Mu2e, RunConfigurations, train_station,
Tracker wrapped as singleton objects. -/
def wrapRoot (stations : List (String × JVal)) : JVal :=
  JVal.obj [("Mu2e", JVal.obj [("RunConfigurations", JVal.obj [("train_station",
    JVal.obj [("Tracker", JVal.obj stations)])])])]

/-- C5: when the traversal reaches a panel node matched at the
station, plane and panel pattern levels (its fields holding a Name
label not yet seen and a ch_mask array), a mask length different from
96 makes the step fail with the malformed-readout-mask error carrying
that panel's Name, and a mask of length exactly 96 makes the step
record readout_disabled as the increasing (hence sorted) list of
exactly the indices whose mask entry is falsy.  The remaining
conjuncts show the surrounding loops propagate the failure unchanged
through matched panel, plane and station keys and through the fixed
key path, so the whole traversal fails with that error. -/
theorem C5_navigator_mask_check (rv : List (String × Rec))
    (fields : List (String × JVal)) (label : String) (mask : List Bool)
    (hname : dget fields "Name" = some (JVal.str label))
    (hmask : dget fields "ch_mask" = some (JVal.arr mask))
    (hfresh : dget rv label = none) :
    (mask.length ≠ 96 →
      doPanel rv (JVal.obj fields)
        = Except.error ("exception: " ++ label ++ ": malformed readout mask"))
    ∧ (mask.length = 96 →
      doPanel rv (JVal.obj fields)
        = Except.ok (dinsert rv label [("readout_disabled", disabledOf mask)])
      ∧ (disabledOf mask).Pairwise (· < ·)
      ∧ ∀ i : Nat, ((i : Int) ∈ disabledOf mask ↔
          i < 96 ∧ mask.getD i true = false))
    ∧ (∀ (rv2 : List (String × Rec)) (kpn : String) (vpn : JVal)
        (rest : List (String × JVal)) (e : String),
        matchPanel kpn = true → doPanel rv2 vpn = Except.error e →
        doPanels rv2 ((kpn, vpn) :: rest) = Except.error e)
    ∧ (∀ (rv2 : List (String × Rec)) (kpl : String)
        (panels rest : List (String × JVal)) (e : String),
        matchPlane kpl = true → doPanels rv2 panels = Except.error e →
        doPlanes rv2 ((kpl, JVal.obj panels) :: rest) = Except.error e)
    ∧ (∀ (rv2 : List (String × Rec)) (kst : String)
        (planes rest : List (String × JVal)) (e : String),
        matchStation kst = true → doPlanes rv2 planes = Except.error e →
        doStations rv2 ((kst, JVal.obj planes) :: rest) = Except.error e)
    ∧ (∀ stations : List (String × JVal),
        get_midas_conditions_core (wrapRoot stations) = doStations [] stations) := by
  refine ⟨?_, ?_, ?_, ?_, ?_, ?_⟩
  · intro hlen
    simp only [doPanel, hname, hmask, hfresh]
    rw [if_neg (by simp), if_pos hlen]
  · intro hlen
    refine ⟨?_, disabledOf_pairwise mask, ?_⟩
    · simp only [doPanel, hname, hmask, hfresh]
      rw [if_neg (by simp), if_neg (by omega)]
    · intro i
      rw [mem_disabledOf, hlen]
  · intro rv2 kpn vpn rest e hm he
    simp only [doPanels, hm, he]
    rfl
  · intro rv2 kpl panels rest e hm he
    simp only [doPlanes, hm, he]
    rfl
  · intro rv2 kst planes rest e hm he
    simp only [doStations, hm, he]
    rfl
  · intro stations
    rfl

/-- C5 witness: a panel named MN001 with a mask of 95 entries is
rejected with the malformed-readout-mask error carrying its name. -/
theorem C5_navigator_mask_check_witness :
    doPanel [] (JVal.obj [("Name", JVal.str "MN001"),
        ("ch_mask", JVal.arr (List.replicate 95 true))])
      = Except.error ("exception: " ++ "MN001" ++ ": malformed readout mask") :=
  (C5_navigator_mask_check [] [("Name", JVal.str "MN001"),
      ("ch_mask", JVal.arr (List.replicate 95 true))] "MN001"
      (List.replicate 95 true) rfl rfl rfl).1 (by decide)

theorem doPanel_ok_nodup (rv rv2 : List (String × Rec)) (vpn : JVal)
    (h : doPanel rv vpn = Except.ok rv2) (hn : (dkeys rv).Nodup) :
    (dkeys rv2).Nodup := by
  unfold doPanel at h
  split at h
  · split at h
    · split at h
      · exact absurd h (by simp)
      · split at h
        · split at h
          · exact absurd h (by simp)
          · rw [Except.ok.injEq] at h
            rw [← h]
            exact nodup_dkeys_dinsert _ _ _ hn
        · exact absurd h (by simp)
        · exact absurd h (by simp)
    · exact absurd h (by simp)
    · exact absurd h (by simp)
  · exact absurd h (by simp)

theorem doPanels_ok_nodup (items : List (String × JVal)) :
    ∀ (rv rv2 : List (String × Rec)),
      doPanels rv items = Except.ok rv2 → (dkeys rv).Nodup → (dkeys rv2).Nodup := by
  induction items with
  | nil =>
    intro rv rv2 h hn
    rw [doPanels, Except.ok.injEq] at h
    rw [← h]
    exact hn
  | cons p rest ih =>
    intro rv rv2 h hn
    rw [show doPanels rv (p :: rest) =
        (if matchPanel p.1 then
          match doPanel rv p.2 with
          | Except.ok rv3 => doPanels rv3 rest
          | Except.error e => Except.error e
        else doPanels rv rest) from rfl] at h
    split at h
    · split at h
      · exact ih _ _ h (doPanel_ok_nodup _ _ _ (by assumption) hn)
      · exact absurd h (by simp)
    · exact ih _ _ h hn

theorem doPlanes_ok_nodup (items : List (String × JVal)) :
    ∀ (rv rv2 : List (String × Rec)),
      doPlanes rv items = Except.ok rv2 → (dkeys rv).Nodup → (dkeys rv2).Nodup := by
  induction items with
  | nil =>
    intro rv rv2 h hn
    rw [doPlanes, Except.ok.injEq] at h
    rw [← h]
    exact hn
  | cons p rest ih =>
    intro rv rv2 h hn
    rw [show doPlanes rv (p :: rest) =
        (if matchPlane p.1 then
          match p.2 with
          | JVal.obj panels =>
            match doPanels rv panels with
            | Except.ok rv3 => doPlanes rv3 rest
            | Except.error e => Except.error e
          | _ => Except.error "type error: plane items"
        else doPlanes rv rest) from rfl] at h
    split at h
    · split at h
      · split at h
        · exact ih _ _ h (doPanels_ok_nodup _ _ _ (by assumption) hn)
        · exact absurd h (by simp)
      · exact absurd h (by simp)
    · exact ih _ _ h hn

theorem doStations_ok_nodup (items : List (String × JVal)) :
    ∀ (rv rv2 : List (String × Rec)),
      doStations rv items = Except.ok rv2 → (dkeys rv).Nodup → (dkeys rv2).Nodup := by
  induction items with
  | nil =>
    intro rv rv2 h hn
    rw [doStations, Except.ok.injEq] at h
    rw [← h]
    exact hn
  | cons p rest ih =>
    intro rv rv2 h hn
    rw [show doStations rv (p :: rest) =
        (if matchStation p.1 then
          match p.2 with
          | JVal.obj planes =>
            match doPlanes rv planes with
            | Except.ok rv3 => doStations rv3 rest
            | Except.error e => Except.error e
          | _ => Except.error "type error: station items"
        else doStations rv rest) from rfl] at h
    split at h
    · split at h
      · split at h
        · exact ih _ _ h (doPlanes_ok_nodup _ _ _ (by assumption) hn)
        · exact absurd h (by simp)
      · exact absurd h (by simp)
    · exact ih _ _ h hn

/-- C6: the navigator rejects duplicate panel names instead of merging
or overwriting: processing a matched panel node whose Name label was
already recorded fails with the duplicate-panel error carrying that
label (whatever the rest of the node holds), and consequently the key
set of any successful traversal output has no duplicate labels. -/
theorem C6_navigator_duplicate_labels :
    (∀ (rv : List (String × Rec)) (fields : List (String × JVal))
        (label : String) (r : Rec),
      dget fields "Name" = some (JVal.str label) →
      dget rv label = some r →
      doPanel rv (JVal.obj fields)
        = Except.error ("encountered duplicate panel " ++ label))
    ∧ (∀ (root : JVal) (out : List (String × Rec)),
      get_midas_conditions_core root = Except.ok out → (dkeys out).Nodup) := by
  constructor
  · intro rv fields label r hname hdup
    simp only [doPanel, hname, hdup]
    rfl
  · intro root out h
    unfold get_midas_conditions_core at h
    split at h
    · exact absurd h (by simp)
    · split at h
      · exact absurd h (by simp)
      · split at h
        · exact absurd h (by simp)
        · split at h
          · exact absurd h (by simp)
          · split at h
            · exact doStations_ok_nodup _ _ _ h (by simp [dkeys])
            · exact absurd h (by simp)

/-- C6 witness: a second panel node named MN001, with the label
already recorded, is rejected with the duplicate-panel error. -/
theorem C6_navigator_duplicate_labels_witness :
    doPanel [("MN001", [("readout_disabled", ([] : List Int))])]
        (JVal.obj [("Name", JVal.str "MN001")])
      = Except.error ("encountered duplicate panel " ++ "MN001") :=
  C6_navigator_duplicate_labels.1 [("MN001", [("readout_disabled", [])])]
    [("Name", JVal.str "MN001")] "MN001" [("readout_disabled", [])] rfl rfl

/-! ## Hardware Condition Fetcher: build_hardware_query, lines 82-91

The query string is assembled sequentially: the SELECT stem, then a
WHERE keyword when the panel filter list is nonempty, then one
equality predicate per supplied panel id in order with an OR between
consecutive predicates, then the ORDER BY tail.  The enumerate of the
source is embedded as List.enum; the sequential rebinding of rv is
compressed into one expression in the same order. -/

def build_hardware_query (panels : List Int) : String :=
  (panels.enum.foldl
    (fun acc ip =>
      (if 0 < ip.1 then acc ++ " OR" else acc) ++ " panel_id = " ++ toString ip.2)
    (if 0 < panels.length then
      "SELECT panel_id,missing_straws,missing_wires from qc.panels" ++ " WHERE"
     else
      "SELECT panel_id,missing_straws,missing_wires from qc.panels"))
  ++ " ORDER BY panel_id ASC;"

/-- The query actually executed by get_hardware_conditions: line 96
calls build_hardware_query with no argument, so the default empty
panel filter is always used. -/
def get_hardware_conditions_query : String := build_hardware_query []

theorem join_cons (a : String) (l : List String) :
    String.join (a :: l) = a ++ String.join l := by
  show (a :: l).foldl (· ++ ·) "" = a ++ l.foldl (· ++ ·) ""
  rw [List.foldl_cons]
  have hshift : ∀ (l2 : List String) (x y : String),
      l2.foldl (· ++ ·) (x ++ y) = x ++ l2.foldl (· ++ ·) y := by
    intro l2
    induction l2 with
    | nil => intro x y; rfl
    | cons b rest ih =>
      intro x y
      rw [List.foldl_cons, List.foldl_cons, String.append_assoc, ih]
  have h1 : "" ++ a = a ++ "" := by rw [String.empty_append, String.append_empty]
  rw [h1, hshift]

theorem hardware_fold_or (ps : List Int) :
    ∀ (n : Nat) (acc : String), 0 < n →
      (List.enumFrom n ps).foldl
        (fun acc ip =>
          (if 0 < ip.1 then acc ++ " OR" else acc) ++ " panel_id = " ++ toString ip.2)
        acc
      = acc ++ String.join (ps.map (fun q => " OR" ++ " panel_id = " ++ toString q)) := by
  induction ps with
  | nil =>
    intro n acc _
    show acc = acc ++ String.join []
    rw [show String.join [] = "" from rfl, String.append_empty]
  | cons q rest ih =>
    intro n acc hn
    rw [List.enumFrom_cons, List.foldl_cons]
    show (List.enumFrom (n + 1) rest).foldl _
        ((if 0 < n then acc ++ " OR" else acc) ++ " panel_id = " ++ toString q) = _
    rw [if_pos hn, ih (n + 1) _ (by omega), List.map_cons, join_cons]
    simp only [String.append_assoc]

/-- C7: for a nonempty panel-id filter list the query is the SELECT of
the three columns, a WHERE, one equality predicate per supplied id in
the order supplied (duplicates kept, since the chain is built by map
over the list), an OR between consecutive predicates, and the ORDER BY
panel_id ASC tail; for the empty list there is no WHERE clause. -/
theorem C7_build_hardware_query_shape :
    (∀ (p : Int) (ps : List Int),
      build_hardware_query (p :: ps)
        = "SELECT panel_id,missing_straws,missing_wires from qc.panels"
          ++ " WHERE" ++ (" panel_id = " ++ toString p)
          ++ String.join (ps.map (fun q => " OR" ++ " panel_id = " ++ toString q))
          ++ " ORDER BY panel_id ASC;")
    ∧ build_hardware_query []
        = "SELECT panel_id,missing_straws,missing_wires from qc.panels"
          ++ " ORDER BY panel_id ASC;" := by
  constructor
  · intro p ps
    unfold build_hardware_query
    rw [if_pos (by simp)]
    rw [show List.enum (p :: ps) = (0, p) :: List.enumFrom 1 ps from rfl]
    rw [List.foldl_cons]
    show (List.enumFrom 1 ps).foldl _
        ((if 0 < 0 then _ ++ " OR" else
          "SELECT panel_id,missing_straws,missing_wires from qc.panels" ++ " WHERE")
          ++ " panel_id = " ++ toString p) ++ " ORDER BY panel_id ASC;" = _
    rw [if_neg (by omega), hardware_fold_or ps 1 _ (by omega)]
    simp only [String.append_assoc]
  · rfl

/-! ## Condition Reconciler: get_conditions, lines 129-144

The merge is pure once the two source mappings are in hand: default
the allow list to the synthetic range of labels MN001 to MN999 when it
is omitted, intersect the union of the two key sets with it, and for
each surviving key build the merged record by updating an empty dict
first with the navigator entry, then with the fetcher entry.  Python
set iteration order is arbitrary, so the embedding fixes one concrete
enumeration (first occurrences of the concatenated key lists, in
order); the claims are statements about key membership and per-key
values, which do not depend on that choice. -/

/-- Label formatting MN then the number zero-padded to width three
(Python percent-03d for the values one to 999). -/
def mnLabel (i : Nat) : String :=
  "MN" ++ (if i < 10 then "00" else if i < 100 then "0" else "") ++ toString i

/-- The default allow list of line 130: labels for range(1, 1000). -/
def defaultAllowedList : List String :=
  (List.range 999).map (fun i => mnLabel (i + 1))

/-- The surviving keys of lines 131-133: the union of the two key
sets intersected with the allow list. -/
def reconcileKeys (midas hardware : List (String × Rec))
    (allowedL : List String) : List String :=
  ((dkeys midas ++ dkeys hardware).dedup).filter (fun k => decide (k ∈ allowedL))

/-- The per-key merge of lines 137-141: an empty record updated with
the navigator entry when the key is a navigator key, then with the
fetcher entry when the key is a fetcher key. -/
def mergeAt (midas hardware : List (String × Rec)) (k : String) : Rec :=
  let tmp : Rec := []
  let tmp := match dget midas k with
    | some mr => dupdate tmp mr
    | none => tmp
  match dget hardware k with
  | some hr => dupdate tmp hr
  | none => tmp

/-- The merge of get_conditions, lines 129-144, from the two source
mappings and the optional allow list. -/
def get_conditions_core (midas hardware : List (String × Rec))
    (allowed : Option (List String)) : List (String × Rec) :=
  (reconcileKeys midas hardware
    (match allowed with
     | none => defaultAllowedList
     | some a => a)).foldl
    (fun rv key => dinsert rv key (mergeAt midas hardware key)) []

theorem dget_foldl_dinsert (f : String → Rec) (keys : List String) :
    ∀ (rv : List (String × Rec)) (a : String),
      dget (keys.foldl (fun rv key => dinsert rv key (f key)) rv) a
        = if a ∈ keys then some (f a) else dget rv a := by
  induction keys with
  | nil =>
    intro rv a
    rw [List.foldl_nil, if_neg (by simp)]
  | cons k0 rest ih =>
    intro rv a
    rw [List.foldl_cons, ih]
    by_cases hmem : a ∈ rest
    · rw [if_pos hmem, if_pos (List.mem_cons.mpr (Or.inr hmem))]
    · rw [if_neg hmem, dget_dinsert]
      by_cases hk : a = k0
      · rw [if_pos hk, if_pos (List.mem_cons.mpr (Or.inl hk)), hk]
      · rw [if_neg hk, if_neg (fun hc => (List.mem_cons.mp hc).elim hk hmem)]

theorem mem_reconcileKeys (midas hardware : List (String × Rec))
    (allowedL : List String) (k : String) :
    k ∈ reconcileKeys midas hardware allowedL ↔
      ((k ∈ dkeys midas ∨ k ∈ dkeys hardware) ∧ k ∈ allowedL) := by
  unfold reconcileKeys
  rw [List.mem_filter, List.mem_dedup, List.mem_append]
  constructor
  · rintro ⟨h1, h2⟩
    exact ⟨h1, of_decide_eq_true h2⟩
  · rintro ⟨h1, h2⟩
    exact ⟨h1, decide_eq_true h2⟩

theorem nodup_reconcileKeys (midas hardware : List (String × Rec))
    (allowedL : List String) :
    (reconcileKeys midas hardware allowedL).Nodup :=
  List.Nodup.filter _ (List.nodup_dedup _)

theorem dget_core_eq (midas hardware : List (String × Rec))
    (allowedL : List String) (k : String) :
    dget (get_conditions_core midas hardware (some allowedL)) k
      = if k ∈ reconcileKeys midas hardware allowedL
        then some (mergeAt midas hardware k) else none := by
  unfold get_conditions_core
  rw [dget_foldl_dinsert (mergeAt midas hardware)]
  by_cases hk : k ∈ reconcileKeys midas hardware allowedL
  · rw [if_pos hk, if_pos hk]
  · rw [if_neg hk, if_neg hk]
    rfl

theorem mem_dkeys_core (midas hardware : List (String × Rec))
    (allowedL : List String) (k : String) :
    k ∈ dkeys (get_conditions_core midas hardware (some allowedL)) ↔
      ((k ∈ dkeys midas ∨ k ∈ dkeys hardware) ∧ k ∈ allowedL) := by
  rw [mem_dkeys_iff_isSome, dget_core_eq, ← mem_reconcileKeys midas hardware allowedL k]
  by_cases hk : k ∈ reconcileKeys midas hardware allowedL
  · rw [if_pos hk]
    simp [hk]
  · rw [if_neg hk]
    simp [hk]

/-- C3: the reconciler's output key set is exactly the union of the
navigator and fetcher key sets intersected with the allow list; an
omitted allow list is the synthetic range MN001 to MN999, whose
members are exactly the labels mnLabel i for i from 1 to 999.  In
particular a label outside the allow list never appears even when
present in both sources, and a label in the allow list but in neither
source never appears. -/
theorem C3_reconciler_key_set (midas hardware : List (String × Rec)) (k : String) :
    (∀ allowedL : List String,
      (k ∈ dkeys (get_conditions_core midas hardware (some allowedL)) ↔
        (k ∈ dkeys midas ∨ k ∈ dkeys hardware) ∧ k ∈ allowedL))
    ∧ get_conditions_core midas hardware none
        = get_conditions_core midas hardware (some defaultAllowedList)
    ∧ (k ∈ defaultAllowedList ↔ ∃ i : Nat, 1 ≤ i ∧ i ≤ 999 ∧ k = mnLabel i) := by
  refine ⟨fun allowedL => mem_dkeys_core midas hardware allowedL k, rfl, ?_⟩
  unfold defaultAllowedList
  rw [List.mem_map]
  constructor
  · rintro ⟨a, ha, hk⟩
    rw [List.mem_range] at ha
    exact ⟨a + 1, by omega, by omega, hk.symm⟩
  · rintro ⟨i, h1, h2, hk⟩
    refine ⟨i - 1, ?_, ?_⟩
    · rw [List.mem_range]
      omega
    · rw [show i - 1 + 1 = i by omega]
      exact hk.symm

theorem dinsert_of_fresh {α : Type} (m : List (String × α)) (k : String) (v : α)
    (h : k ∉ dkeys m) : dinsert m k v = m ++ [(k, v)] := by
  induction m with
  | nil => rfl
  | cons p rest ih =>
    rw [dkeys_cons, List.mem_cons] at h
    show (if p.1 = k then (k, v) :: rest else p :: dinsert rest k v) = p :: (rest ++ [(k, v)])
    rw [if_neg (fun hh => h (Or.inl hh.symm)), ih (fun hh => h (Or.inr hh))]

theorem dkeys_append {α : Type} (m l : List (String × α)) :
    dkeys (m ++ l) = dkeys m ++ dkeys l := by
  unfold dkeys
  rw [List.map_append]

theorem dupdate_fresh {α : Type} (d : List (String × α)) :
    ∀ (m : List (String × α)),
      (∀ x ∈ dkeys d, x ∉ dkeys m) → (dkeys d).Nodup →
      dupdate m d = m ++ d := by
  induction d with
  | nil =>
    intro m _ _
    show m = m ++ []
    rw [List.append_nil]
  | cons p rest ih =>
    intro m hf hnd
    rw [dkeys_cons, List.nodup_cons] at hnd
    show dupdate (dinsert m p.1 p.2) rest = m ++ (p :: rest)
    rw [dinsert_of_fresh m p.1 p.2 (hf p.1 (by rw [dkeys_cons]; exact List.mem_cons_self _ _))]
    rw [ih (m ++ [(p.1, p.2)]) ?_ hnd.2]
    · rw [List.append_assoc]
      rfl
    · intro x hx
      rw [dkeys_append]
      rw [List.mem_append]
      rintro (hxm | hxs)
      · exact hf x (by rw [dkeys_cons]; exact List.mem_cons_of_mem _ hx) hxm
      · have hxp : x = p.1 := by
          have : dkeys [(p.1, p.2)] = [p.1] := rfl
          rw [this, List.mem_singleton] at hxs
          exact hxs
        exact hnd.1 (hxp ▸ hx)

theorem dupdate_nil_eq {α : Type} (d : List (String × α))
    (hnd : (dkeys d).Nodup) : dupdate [] d = d := by
  have h := dupdate_fresh d [] (by intro x _ hx; exact absurd hx (by simp [dkeys])) hnd
  rw [List.nil_append] at h
  exact h

theorem dget_dupdate {α : Type} (d : List (String × α)) :
    ∀ (m : List (String × α)) (a : String), (dkeys d).Nodup →
      dget (dupdate m d) a
        = if (dget d a).isSome then dget d a else dget m a := by
  induction d with
  | nil =>
    intro m a _
    show dget m a = if (none : Option α).isSome then _ else dget m a
    rw [if_neg (by simp)]
  | cons p rest ih =>
    intro m a hnd
    rw [dkeys_cons, List.nodup_cons] at hnd
    show dget (dupdate (dinsert m p.1 p.2) rest) a
      = if (if p.1 = a then some p.2 else dget rest a).isSome
        then (if p.1 = a then some p.2 else dget rest a) else dget m a
    rw [ih (dinsert m p.1 p.2) a hnd.2]
    by_cases hpa : p.1 = a
    · have hra : dget rest a = none := by
        rw [dget_eq_none_iff]
        intro hmem
        exact hnd.1 (hpa ▸ hmem)
      rw [hra, if_pos hpa]
      rw [if_neg (by simp), dget_dinsert, if_pos hpa.symm, if_pos (by simp)]
    · rw [if_neg hpa]
      by_cases hrs : (dget rest a).isSome
      · rw [if_pos hrs, if_pos hrs]
      · rw [if_neg hrs, if_neg hrs, dget_dinsert, if_neg (fun hh => hpa hh.symm)]

theorem mergeAt_only_midas (midas hardware : List (String × Rec)) (k : String)
    (mr : Rec) (hm : dget midas k = some mr) (hh : dget hardware k = none)
    (hnd : (dkeys mr).Nodup) :
    mergeAt midas hardware k = mr := by
  simp only [mergeAt, hm, hh]
  exact dupdate_nil_eq mr hnd

theorem mergeAt_only_hardware (midas hardware : List (String × Rec)) (k : String)
    (hr : Rec) (hm : dget midas k = none) (hh : dget hardware k = some hr)
    (hnd : (dkeys hr).Nodup) :
    mergeAt midas hardware k = hr := by
  simp only [mergeAt, hm, hh]
  exact dupdate_nil_eq hr hnd

theorem mergeAt_both (midas hardware : List (String × Rec)) (k : String)
    (mr hr : Rec) (hm : dget midas k = some mr) (hh : dget hardware k = some hr)
    (hndm : (dkeys mr).Nodup) (hndh : (dkeys hr).Nodup) (f : String) :
    dget (mergeAt midas hardware k) f
      = if (dget hr f).isSome then dget hr f else dget mr f := by
  simp only [mergeAt, hm, hh]
  rw [dget_dupdate hr _ f hndh, dupdate_nil_eq mr hndm]

/-- C4: for every key surviving the reconciliation, the merged record
is the navigator entry updated by the fetcher entry: a label found in
only one source yields exactly that source's record, a label in both
yields a record defined on the union of their field names, and on a
field both define, the fetcher's value wins.  The no-duplicate-key
hypotheses restate the Python dict invariant for the source records. -/
theorem C4_reconciler_merge (midas hardware : List (String × Rec))
    (allowed : Option (List String)) (k : String)
    (hk : k ∈ dkeys (get_conditions_core midas hardware allowed)) :
    (∀ mr : Rec, dget midas k = some mr → dget hardware k = none →
      (dkeys mr).Nodup →
      dget (get_conditions_core midas hardware allowed) k = some mr)
    ∧ (∀ hr : Rec, dget midas k = none → dget hardware k = some hr →
      (dkeys hr).Nodup →
      dget (get_conditions_core midas hardware allowed) k = some hr)
    ∧ (∀ mr hr : Rec, dget midas k = some mr → dget hardware k = some hr →
      (dkeys mr).Nodup → (dkeys hr).Nodup →
      ∃ mrec : Rec,
        dget (get_conditions_core midas hardware allowed) k = some mrec
        ∧ (∀ f, dget mrec f = if (dget hr f).isSome then dget hr f else dget mr f)
        ∧ (∀ f, (dget mrec f).isSome = true ↔
            ((dget mr f).isSome = true ∨ (dget hr f).isSome = true))) := by
  obtain ⟨aL, hAL⟩ : ∃ aL, get_conditions_core midas hardware allowed
      = get_conditions_core midas hardware (some aL) := by
    cases allowed with
    | none => exact ⟨defaultAllowedList, rfl⟩
    | some a => exact ⟨a, rfl⟩
  rw [hAL] at hk ⊢
  have hkk : k ∈ reconcileKeys midas hardware aL := by
    rw [mem_reconcileKeys]
    exact (mem_dkeys_core midas hardware aL k).mp hk
  have hval := dget_core_eq midas hardware aL k
  rw [if_pos hkk] at hval
  refine ⟨?_, ?_, ?_⟩
  · intro mr hm hh hnd
    rw [hval, mergeAt_only_midas midas hardware k mr hm hh hnd]
  · intro hr hm hh hnd
    rw [hval, mergeAt_only_hardware midas hardware k hr hm hh hnd]
  · intro mr hr hm hh hndm hndh
    refine ⟨mergeAt midas hardware k, hval, ?_, ?_⟩
    · intro f
      exact mergeAt_both midas hardware k mr hr hm hh hndm hndh f
    · intro f
      rw [mergeAt_both midas hardware k mr hr hm hh hndm hndh f]
      by_cases hf : (dget hr f).isSome
      · rw [if_pos hf]
        constructor
        · intro _
          exact Or.inr hf
        · intro _
          exact hf
      · rw [if_neg hf]
        constructor
        · intro h1
          exact Or.inl h1
        · intro h1
          rcases h1 with h1 | h1
          · exact h1
          · exact absurd h1 hf

/-- C4 witness: a label present only in the navigator mapping, with
the allow list containing it, is mapped to exactly the navigator
record. -/
theorem C4_reconciler_merge_witness :
    dget (get_conditions_core [("MN001", [("readout_disabled", ([3] : List Int))])]
        [] (some ["MN001"])) "MN001"
      = some [("readout_disabled", [3])] :=
  (C4_reconciler_merge [("MN001", [("readout_disabled", ([3] : List Int))])] []
      (some ["MN001"]) "MN001" (by decide)).1
    [("readout_disabled", [3])] rfl rfl (by decide)

/-- Whether the first list is an initial segment of the second. -/
def beginsWith : List Char → List Char → Bool
  | [], _ => true
  | _ :: _, [] => false
  | c :: cs, d :: ds => c == d && beginsWith cs ds

/-- Whether the pattern occurs as a contiguous segment anywhere in the
text. -/
def occursIn (pat : List Char) : List Char → Bool
  | [] => beginsWith pat []
  | c :: rest => beginsWith pat (c :: rest) || occursIn pat rest

/-- C9: get_hardware_conditions always executes the unfiltered query:
line 96 calls build_hardware_query with no argument, so the empty
default filter is used, the resulting SQL carries no WHERE clause and
requests rows for all panels; a caller-supplied panel filter reaches
only the reconciler, where it restricts the output key set (every
output key belongs to the supplied allow list). -/
theorem C9_hardware_query_always_unfiltered :
    get_hardware_conditions_query = build_hardware_query []
    ∧ get_hardware_conditions_query
        = "SELECT panel_id,missing_straws,missing_wires from qc.panels ORDER BY panel_id ASC;"
    ∧ occursIn ("WHERE".toList) (get_hardware_conditions_query.toList) = false
    ∧ (∀ (midas hardware : List (String × Rec)) (allowedL : List String) (k : String),
        k ∈ dkeys (get_conditions_core midas hardware (some allowedL)) →
        k ∈ allowedL) := by
  refine ⟨rfl, by decide, by decide, ?_⟩
  intro midas hardware allowedL k hk
  exact ((mem_dkeys_core midas hardware allowedL k).mp hk).2

/-- C9 witness: with the navigator providing MN001 and the allow list
containing only MN001, the surviving key is in the allow list. -/
theorem C9_hardware_query_always_unfiltered_witness :
    ("MN001" : String) ∈ (["MN001"] : List String) :=
  C9_hardware_query_always_unfiltered.2.2.2
    [("MN001", [("readout_disabled", ([] : List Int))])] [] ["MN001"] "MN001"
    (by decide)

/-! ## Table Emitter: write_offline_table, lines 157-164

For each status level the source writes the level name, then for each
output-label and source-field pair under it, for each merged panel it
looks up the panel coordinate in the geographic map (a missing panel
is a Python KeyError) and the field in the panel record (likewise),
and writes one line per index in the field's list.  The emitted lines
are collected into a list; the write callback itself is an external
collaborator. -/

/-- One emitted data line per straw index, in the format
plane underscore panel underscore straw, comma, label. -/
def emitStraws (plane panel : Int) (label : String) (straws : List Int) :
    List String :=
  straws.map (fun straw =>
    toString plane ++ "_" ++ toString panel ++ "_" ++ toString straw ++ ", " ++ label)

/-- The panel loop of lines 161-164 for one output label and source
field: geographic lookup first, then the record field lookup, then
one line per index. -/
def emitPanels (geography : List (String × (Int × Int))) (label lk : String) :
    List (String × Rec) → Except String (List String)
  | [] => Except.ok []
  | (mn, cols) :: rest =>
    match dget geography mn with
    | none => Except.error ("key error: " ++ mn)
    | some pp =>
      match dget cols lk with
      | none => Except.error ("key error: " ++ lk)
      | some straws =>
        match emitPanels geography label lk rest with
        | Except.ok lines => Except.ok (emitStraws pp.1 pp.2 label straws ++ lines)
        | Except.error e => Except.error e

/-- The criteria loop of lines 160-164 for one level. -/
def emitCriteria (geography : List (String × (Int × Int)))
    (conditions : List (String × Rec)) :
    List (String × String) → Except String (List String)
  | [] => Except.ok []
  | (label, lk) :: rest =>
    match emitPanels geography label lk conditions with
    | Except.error e => Except.error e
    | Except.ok lines =>
      match emitCriteria geography conditions rest with
      | Except.error e => Except.error e
      | Except.ok more => Except.ok (lines ++ more)

/-- The level loop of lines 158-164: a header line per level, then the
level's data lines. -/
def emitScheme (conditions : List (String × Rec))
    (geography : List (String × (Int × Int))) :
    List (String × List (String × String)) → Except String (List String)
  | [] => Except.ok []
  | (level, criteria) :: rest =>
    match emitCriteria geography conditions criteria with
    | Except.error e => Except.error e
    | Except.ok lines =>
      match emitScheme conditions geography rest with
      | Except.error e => Except.error e
      | Except.ok more => Except.ok (level :: (lines ++ more))

/-- write_offline_table, lines 157-164, collecting the written lines. -/
def write_offline_table (conditions : List (String × Rec))
    (geography : List (String × (Int × Int)))
    (scheme : List (String × List (String × String))) : Except String (List String) :=
  emitScheme conditions geography scheme

/-- The straw list of a panel record for a source field, with a
default for the closed-form statements (only used where the lookup is
known to succeed). -/
def strawsOf (cols : Rec) (lk : String) : List Int := (dget cols lk).getD []

/-- The coordinate of a panel in the geographic map, with a default
for the closed-form statements. -/
def coordOf (geography : List (String × (Int × Int))) (mn : String) : Int × Int :=
  (dget geography mn).getD (0, 0)

/-- Closed form of the data lines of one level: for each output-label
and source-field pair, for each merged panel, one line per index. -/
def levelLines (geography : List (String × (Int × Int)))
    (conditions : List (String × Rec))
    (criteria : List (String × String)) : List String :=
  (criteria.map (fun ll =>
    (conditions.map (fun mc =>
      emitStraws (coordOf geography mc.1).1 (coordOf geography mc.1).2 ll.1
        (strawsOf mc.2 ll.2))).flatten)).flatten

theorem emitStraws_length (plane panel : Int) (label : String) (straws : List Int) :
    (emitStraws plane panel label straws).length = straws.length := by
  unfold emitStraws
  rw [List.length_map]

theorem emitPanels_ok_shape (geography : List (String × (Int × Int)))
    (label lk : String) (conditions : List (String × Rec)) :
    ∀ lines, emitPanels geography label lk conditions = Except.ok lines →
      lines = (conditions.map (fun mc =>
        emitStraws (coordOf geography mc.1).1 (coordOf geography mc.1).2 label
          (strawsOf mc.2 lk))).flatten := by
  induction conditions with
  | nil =>
    intro lines h
    rw [emitPanels, Except.ok.injEq] at h
    rw [← h]
    rfl
  | cons mc rest ih =>
    obtain ⟨mn, cols⟩ := mc
    intro lines h
    simp only [emitPanels] at h
    cases hg : dget geography mn with
    | none =>
      rw [hg] at h
      exact Except.noConfusion h
    | some pp =>
      rw [hg] at h
      simp only [] at h
      cases hc : dget cols lk with
      | none =>
        rw [hc] at h
        exact Except.noConfusion h
      | some straws =>
        rw [hc] at h
        simp only [] at h
        cases he : emitPanels geography label lk rest with
        | error e =>
          rw [he] at h
          exact Except.noConfusion h
        | ok lines2 =>
          rw [he] at h
          simp only [Except.ok.injEq] at h
          rw [← h, List.map_cons, List.flatten_cons, ih lines2 he]
          have h1 : coordOf geography (mn, cols).1 = pp := by
            unfold coordOf
            rw [show (mn, cols).1 = mn from rfl, hg]
            rfl
          have h2 : strawsOf (mn, cols).2 lk = straws := by
            unfold strawsOf
            rw [show (mn, cols).2 = cols from rfl, hc]
            rfl
          rw [h1, h2]

theorem emitCriteria_ok_shape (geography : List (String × (Int × Int)))
    (conditions : List (String × Rec)) (criteria : List (String × String)) :
    ∀ lines, emitCriteria geography conditions criteria = Except.ok lines →
      lines = levelLines geography conditions criteria := by
  induction criteria with
  | nil =>
    intro lines h
    rw [emitCriteria, Except.ok.injEq] at h
    rw [← h]
    rfl
  | cons ll rest ih =>
    obtain ⟨label, lk⟩ := ll
    intro lines h
    simp only [emitCriteria] at h
    cases hp : emitPanels geography label lk conditions with
    | error e =>
      rw [hp] at h
      exact Except.noConfusion h
    | ok lines1 =>
      rw [hp] at h
      cases hcr : emitCriteria geography conditions rest with
      | error e =>
        rw [hcr] at h
        exact Except.noConfusion h
      | ok more =>
        rw [hcr] at h
        simp only [Except.ok.injEq] at h
        rw [← h, ih more hcr]
        unfold levelLines
        rw [List.map_cons, List.flatten_cons]
        rw [emitPanels_ok_shape geography label lk conditions lines1 hp]

theorem emitScheme_ok_shape (conditions : List (String × Rec))
    (geography : List (String × (Int × Int)))
    (scheme : List (String × List (String × String))) :
    ∀ lines, emitScheme conditions geography scheme = Except.ok lines →
      lines = (scheme.map (fun lc =>
        lc.1 :: levelLines geography conditions lc.2)).flatten := by
  induction scheme with
  | nil =>
    intro lines h
    rw [emitScheme, Except.ok.injEq] at h
    rw [← h]
    rfl
  | cons lc rest ih =>
    obtain ⟨level, criteria⟩ := lc
    intro lines h
    simp only [emitScheme] at h
    cases hcr : emitCriteria geography conditions criteria with
    | error e =>
      rw [hcr] at h
      exact Except.noConfusion h
    | ok lines1 =>
      rw [hcr] at h
      cases hs : emitScheme conditions geography rest with
      | error e =>
        rw [hs] at h
        exact Except.noConfusion h
      | ok more =>
        rw [hs] at h
        simp only [Except.ok.injEq] at h
        rw [← h, ih more hs, List.map_cons, List.flatten_cons]
        rw [emitCriteria_ok_shape geography conditions criteria lines1 hcr]
        rfl

theorem levelLines_length (geography : List (String × (Int × Int)))
    (conditions : List (String × Rec)) (criteria : List (String × String)) :
    (levelLines geography conditions criteria).length
      = (criteria.map (fun ll =>
          (conditions.map (fun mc => (strawsOf mc.2 ll.2).length)).sum)).sum := by
  unfold levelLines
  rw [List.length_flatten, List.map_map]
  refine congrArg List.sum (List.map_congr_left ?_)
  intro ll _
  show ((conditions.map _).flatten).length = _
  rw [List.length_flatten, List.map_map]
  refine congrArg List.sum (List.map_congr_left ?_)
  intro mc _
  exact emitStraws_length _ _ _ _

/-- C8: whenever the emitter succeeds, its output is, level by level
in scheme order, the level's header line followed by one data line of
the plane-panel-straw-comma-label form per output-label, panel and
index triple; hence the number of data lines under a level is the sum
over that level's output-label entries and over all merged panels of
the length of the panel's index list for the entry's source field. -/
theorem C8_emitter_lines_and_counts (conditions : List (String × Rec))
    (geography : List (String × (Int × Int)))
    (scheme : List (String × List (String × String))) (lines : List String)
    (h : write_offline_table conditions geography scheme = Except.ok lines) :
    lines = (scheme.map (fun lc =>
        lc.1 :: levelLines geography conditions lc.2)).flatten
    ∧ ∀ lc ∈ scheme, (levelLines geography conditions lc.2).length
        = (lc.2.map (fun ll =>
            (conditions.map (fun mc => (strawsOf mc.2 ll.2).length)).sum)).sum := by
  refine ⟨emitScheme_ok_shape conditions geography scheme lines h, ?_⟩
  intro lc _
  exact levelLines_length geography conditions lc.2

/-- C8 witness: the scenario of the specification: panel MN005 with
missing_straws three and seven, coordinate plane one panel two, level
TrkStrawStatusLong mapping label Absent to missing_straws; the output
is the header line followed by the two Absent lines. -/
theorem C8_emitter_lines_and_counts_witness :
    (["TrkStrawStatusLong", "1_2_3, Absent", "1_2_7, Absent"] : List String)
      = (([("TrkStrawStatusLong", [("Absent", "missing_straws")])]
          : List (String × List (String × String))).map (fun lc =>
          lc.1 :: levelLines [("MN005", ((1 : Int), (2 : Int)))]
            [("MN005", [("missing_straws", ([3, 7] : List Int))])] lc.2)).flatten :=
  (C8_emitter_lines_and_counts
    [("MN005", [("missing_straws", ([3, 7] : List Int))])]
    [("MN005", ((1 : Int), (2 : Int)))]
    [("TrkStrawStatusLong", [("Absent", "missing_straws")])]
    ["TrkStrawStatusLong", "1_2_3, Absent", "1_2_7, Absent"] (by rfl)).1

theorem emitPanels_ok_present (geography : List (String × (Int × Int)))
    (label lk : String) (conditions : List (String × Rec)) :
    ∀ lines, emitPanels geography label lk conditions = Except.ok lines →
      ∀ mc ∈ conditions,
        (dget geography mc.1).isSome = true ∧ (dget mc.2 lk).isSome = true := by
  induction conditions with
  | nil =>
    intro lines _ mc hmc
    exact absurd hmc (by simp)
  | cons mc0 rest ih =>
    obtain ⟨mn, cols⟩ := mc0
    intro lines h mc hmc
    simp only [emitPanels] at h
    cases hg : dget geography mn with
    | none =>
      rw [hg] at h
      exact Except.noConfusion h
    | some pp =>
      rw [hg] at h
      cases hc : dget cols lk with
      | none =>
        rw [hc] at h
        exact Except.noConfusion h
      | some straws =>
        rw [hc] at h
        cases he : emitPanels geography label lk rest with
        | error e =>
          rw [he] at h
          exact Except.noConfusion h
        | ok lines2 =>
          rcases List.mem_cons.mp hmc with hmc0 | hmcr
          · rw [hmc0]
            constructor
            · rw [show ((mn, cols) : String × Rec).1 = mn from rfl, hg]
              rfl
            · rw [show ((mn, cols) : String × Rec).2 = cols from rfl, hc]
              rfl
          · exact ih lines2 he mc hmcr

theorem emitCriteria_ok_present (geography : List (String × (Int × Int)))
    (conditions : List (String × Rec)) (criteria : List (String × String)) :
    ∀ lines, emitCriteria geography conditions criteria = Except.ok lines →
      ∀ ll ∈ criteria, ∀ mc ∈ conditions,
        (dget geography mc.1).isSome = true ∧ (dget mc.2 ll.2).isSome = true := by
  induction criteria with
  | nil =>
    intro lines _ ll hll
    exact absurd hll (by simp)
  | cons ll0 rest ih =>
    obtain ⟨label, lk⟩ := ll0
    intro lines h ll hll mc hmc
    simp only [emitCriteria] at h
    cases hp : emitPanels geography label lk conditions with
    | error e =>
      rw [hp] at h
      exact Except.noConfusion h
    | ok lines1 =>
      rw [hp] at h
      cases hcr : emitCriteria geography conditions rest with
      | error e =>
        rw [hcr] at h
        exact Except.noConfusion h
      | ok more =>
        rcases List.mem_cons.mp hll with hll0 | hllr
        · rw [hll0]
          exact emitPanels_ok_present geography label lk conditions lines1 hp mc hmc
        · exact ih more hcr ll hllr mc hmc

/-- C10: the emitter completes without error only when every merged
panel record contains every source field named by the status scheme
and every merged panel appears in the geographic map; a missing field
or an unmapped panel makes the corresponding lookup fail instead of
being skipped, so success implies every lookup was present. -/
theorem C10_emitter_requires_all_lookups (conditions : List (String × Rec))
    (geography : List (String × (Int × Int)))
    (scheme : List (String × List (String × String))) (lines : List String)
    (h : write_offline_table conditions geography scheme = Except.ok lines) :
    ∀ lc ∈ scheme, ∀ ll ∈ lc.2, ∀ mc ∈ conditions,
      (dget geography mc.1).isSome = true ∧ (dget mc.2 ll.2).isSome = true := by
  induction scheme generalizing lines with
  | nil =>
    intro lc hlc
    exact absurd hlc (by simp)
  | cons lc0 rest ih =>
    obtain ⟨level, criteria⟩ := lc0
    intro lc hlc ll hll mc hmc
    simp only [write_offline_table, emitScheme] at h
    cases hcr : emitCriteria geography conditions criteria with
    | error e =>
      rw [hcr] at h
      exact Except.noConfusion h
    | ok lines1 =>
      rw [hcr] at h
      cases hs : emitScheme conditions geography rest with
      | error e =>
        rw [hs] at h
        exact Except.noConfusion h
      | ok more =>
        rcases List.mem_cons.mp hlc with hlc0 | hlcr
        · rw [hlc0] at hll
          exact emitCriteria_ok_present geography conditions criteria lines1 hcr ll
            hll mc hmc
        · exact ih more hs lc hlcr ll hll mc hmc

/-- C10 witness: on the specification's scenario data every lookup the
emitter needs is present. -/
theorem C10_emitter_requires_all_lookups_witness :
    (dget [("MN005", ((1 : Int), (2 : Int)))] "MN005").isSome = true
    ∧ (dget [("missing_straws", ([3, 7] : List Int))] "missing_straws").isSome = true :=
  C10_emitter_requires_all_lookups
    [("MN005", [("missing_straws", ([3, 7] : List Int))])]
    [("MN005", ((1 : Int), (2 : Int)))]
    [("TrkStrawStatusLong", [("Absent", "missing_straws")])]
    ["TrkStrawStatusLong", "1_2_3, Absent", "1_2_7, Absent"] (by rfl)
    ("TrkStrawStatusLong", [("Absent", "missing_straws")]) (by decide)
    ("Absent", "missing_straws") (by decide)
    ("MN005", [("missing_straws", ([3, 7] : List Int))]) (by decide)
